import Mathlib

/-! Verification of the GST litigation tracker ingestion and reconciliation
core (src/app.py).  The register is a list of canonical records; ingestion
appends normalized rows (pd.concat, lines 102-113), status update mutates one
row in place (lines 172-177), text extraction concatenates PDF pages (lines
29-37), and collaborator responses are parsed by locating a bracketed span
with the regex pattern backslash-bracket dot-star backslash-bracket under
DOTALL and feeding it to a JSON parser (lines 64-72). -/

namespace Tracker

/-- Model of a parsed JSON value as produced by json.loads.  Numbers keep
their raw lexeme (the numeric semantics of Python floats is irrelevant to
the register pipeline). -/
inductive Json where
  | null : Json
  | bool (b : Bool) : Json
  | num (lexeme : String) : Json
  | str (s : String) : Json
  | arr (elems : List Json) : Json
  | obj (members : List (String × Json)) : Json

/-- The opening curly brace character. -/
def lbrace : Char := Char.ofNat 123

/-- The closing curly brace character. -/
def rbrace : Char := Char.ofNat 125

/-- Skip JSON whitespace, as json.loads does between tokens. -/
def skipWs : List Char → List Char
  | [] => []
  | c :: cs => if c = ' ' ∨ c = '\n' ∨ c = '\t' ∨ c = '\r' then skipWs cs else c :: cs

/-- Decode a single-character JSON string escape.  Unicode escapes of the
form backslash-u are not modelled; no claim depends on them. -/
def escChar (c : Char) : Option Char :=
  if c = 'n' then some '\n'
  else if c = 't' then some '\t'
  else if c = 'r' then some '\r'
  else if c = 'b' then some (Char.ofNat 8)
  else if c = 'f' then some (Char.ofNat 12)
  else if c = '"' then some '"'
  else if c = '\\' then some '\\'
  else if c = '/' then some '/'
  else none

/-- Parse the body of a JSON string literal, after the opening quote.  The
first argument accumulates decoded characters in reverse.  As in the strict
mode json.loads runs with, a raw control character below code point 32
inside a string is rejected; it would have to be escaped. -/
def parseStringBody : List Char → List Char → Option (String × List Char)
  | _, [] => none
  | acc, '"' :: rest => some (String.mk acc.reverse, rest)
  | acc, '\\' :: rest =>
    match rest with
    | [] => none
    | e :: rest2 =>
      match escChar e with
      | some c => parseStringBody (c :: acc) rest2
      | none => none
  | acc, c :: rest =>
    if c.toNat < 32 then none else parseStringBody (c :: acc) rest

/-- Take the maximal leading run of decimal digits. -/
def takeDigits : List Char → List Char × List Char
  | [] => ([], [])
  | c :: rest =>
    if c.isDigit then
      match takeDigits rest with
      | (ds, r) => (c :: ds, r)
    else ([], c :: rest)

/-- Parse an optional fractional part: a dot followed by digits. -/
def parseFrac : List Char → Option (List Char × List Char)
  | '.' :: r =>
    match takeDigits r with
    | ([], _) => none
    | (fs, rr) => some ('.' :: fs, rr)
  | cs => some ([], cs)

/-- Parse an optional exponent part: e or E, an optional sign, and digits. -/
def parseExp : List Char → Option (List Char × List Char)
  | [] => some ([], [])
  | c :: r =>
    if c = 'e' ∨ c = 'E' then
      match r with
      | [] => none
      | s :: r2 =>
        if s = '+' ∨ s = '-' then
          match takeDigits r2 with
          | ([], _) => none
          | (ds, rr) => some (c :: s :: ds, rr)
        else
          match takeDigits r with
          | ([], _) => none
          | (ds, rr) => some (c :: ds, rr)
    else some ([], c :: r)

/-- The JSON grammar for the integer part of a number: a single zero or a
run of digits starting with a nonzero one.  json.loads rejects leading
zeros such as 007. -/
def validIntPart : List Char → Bool
  | [] => false
  | ['0'] => true
  | '0' :: _ :: _ => false
  | _ => true

/-- Parse a JSON number, returning its raw lexeme.  The integer part must
satisfy the JSON grammar; fraction and exponent digits are unrestricted,
matching json.loads. -/
def parseNumber (cs : List Char) : Option (String × List Char) :=
  match cs with
  | '-' :: r =>
    match takeDigits r with
    | ([], _) => none
    | (ds, r1) =>
      if validIntPart ds then
        match parseFrac r1 with
        | none => none
        | some (fs, r2) =>
          match parseExp r2 with
          | none => none
          | some (es, r3) => some (String.mk ('-' :: (ds ++ fs ++ es)), r3)
      else none
  | _ =>
    match takeDigits cs with
    | ([], _) => none
    | (ds, r1) =>
      if validIntPart ds then
        match parseFrac r1 with
        | none => none
        | some (fs, r2) =>
          match parseExp r2 with
          | none => none
          | some (es, r3) => some (String.mk (ds ++ fs ++ es), r3)
      else none

mutual

/-- Parse one JSON value.  Fuel bounds the recursion depth; the top level
supplies more than enough for any input of the given length. -/
def parseVal : Nat → List Char → Option (Json × List Char)
  | 0, _ => none
  | Nat.succ fuel, cs =>
    match skipWs cs with
    | 'n' :: 'u' :: 'l' :: 'l' :: r => some (Json.null, r)
    | 't' :: 'r' :: 'u' :: 'e' :: r => some (Json.bool true, r)
    | 'f' :: 'a' :: 'l' :: 's' :: 'e' :: r => some (Json.bool false, r)
    | '"' :: r =>
      match parseStringBody [] r with
      | some (s, r2) => some (Json.str s, r2)
      | none => none
    | '[' :: r => parseElems fuel r
    | c :: r =>
      if c = lbrace then parseMembers fuel r
      else
        match parseNumber (c :: r) with
        | some (lex, r2) => some (Json.num lex, r2)
        | none => none
    | [] => none

/-- Parse the elements of an array, positioned just after the opening
bracket: either an immediate closing bracket or a first value. -/
def parseElems : Nat → List Char → Option (Json × List Char)
  | 0, _ => none
  | Nat.succ fuel, cs =>
    match skipWs cs with
    | ']' :: r => some (Json.arr [], r)
    | cs2 =>
      match parseVal fuel cs2 with
      | some (v, r) =>
        match parseElemsRest fuel r with
        | some (Json.arr vs, r2) => some (Json.arr (v :: vs), r2)
        | _ => none
      | none => none

/-- Parse the continuation of an array after one element: a comma and a
further element, or the closing bracket. -/
def parseElemsRest : Nat → List Char → Option (Json × List Char)
  | 0, _ => none
  | Nat.succ fuel, cs =>
    match skipWs cs with
    | ']' :: r => some (Json.arr [], r)
    | ',' :: r =>
      match parseVal fuel r with
      | some (v, r2) =>
        match parseElemsRest fuel r2 with
        | some (Json.arr vs, r3) => some (Json.arr (v :: vs), r3)
        | _ => none
      | none => none
    | _ => none

/-- Parse the members of an object, positioned just after the opening brace:
either an immediate closing brace or a first key-value pair. -/
def parseMembers : Nat → List Char → Option (Json × List Char)
  | 0, _ => none
  | Nat.succ fuel, cs =>
    match skipWs cs with
    | [] => none
    | c :: r =>
      if c = rbrace then some (Json.obj [], r)
      else if c = '"' then
        match parseStringBody [] r with
        | some (k, r2) =>
          match skipWs r2 with
          | ':' :: r3 =>
            match parseVal fuel r3 with
            | some (v, r4) =>
              match parseMembersRest fuel r4 with
              | some (Json.obj kvs, r5) => some (Json.obj ((k, v) :: kvs), r5)
              | _ => none
            | none => none
          | _ => none
        | none => none
      else none

/-- Parse the continuation of an object after one member: a comma and a
further member, or the closing brace. -/
def parseMembersRest : Nat → List Char → Option (Json × List Char)
  | 0, _ => none
  | Nat.succ fuel, cs =>
    match skipWs cs with
    | [] => none
    | c :: r =>
      if c = rbrace then some (Json.obj [], r)
      else if c = ',' then
        match skipWs r with
        | '"' :: r2 =>
          match parseStringBody [] r2 with
          | some (k, r3) =>
            match skipWs r3 with
            | ':' :: r4 =>
              match parseVal fuel r4 with
              | some (v, r5) =>
                match parseMembersRest fuel r5 with
                | some (Json.obj kvs, r6) => some (Json.obj ((k, v) :: kvs), r6)
                | _ => none
              | none => none
            | _ => none
          | none => none
        | _ => none
      else none

end

/-- Model of json.loads on a character list: one value, with only
whitespace allowed before and after; anything else fails. -/
def parseJsonChars (cs : List Char) : Option Json :=
  match parseVal (2 * cs.length + 8) cs with
  | some (v, rest) => if skipWs rest = [] then some v else none
  | none => none

/-- Model of json.loads on a string. -/
def parseJson (s : String) : Option Json :=
  parseJsonChars s.data

/-- Model of the regex search for a bracketed span in the collaborator
response (app.py line 67).  Under DOTALL with a greedy dot-star, the match,
when it exists, runs from the first opening bracket in the text to the last
closing bracket, and it exists exactly when that last closing bracket lies
after that first opening bracket. -/
def locateJsonArray (cs : List Char) : Option (List Char) :=
  match cs.findIdx? (fun c => c = '['), cs.reverse.findIdx? (fun c => c = ']') with
  | some i, some jr =>
    let j := cs.length - 1 - jr
    if i < j then some ((cs.drop i).take (j - i + 1)) else none
  | _, _ => none

/-- The elements of a parsed array, or the empty list when parsing failed:
the caught-failure path of app.py lines 68-72. -/
def elemsOrEmpty : Option Json → List Json
  | some (Json.arr xs) => xs
  | _ => []

/-- Model of extract_with_ai_batch (app.py lines 46-72) from the collaborator
response onward: the network call itself is the external collaborator, so
the raw response text is the input here.  The regex span, when present, is
fed to json.loads; a parse failure is caught and, like a missing span, falls
through to the empty list.  The function is total: no input raises. -/
def extract_with_ai_batch (responseText : String) : List Json :=
  match locateJsonArray responseText.data with
  | none => []
  | some span => elemsOrEmpty (parseJsonChars span)

/-- Modelled from the spec: the span of the first top-level JSON array
located by bracket-matching, as section 4.2 and 6 of the spec describe the
locate step.  Present only to compare against the regex locate actually in
the code; matchCloseAux scans to the bracket that closes the array, tracking
nesting depth, with the reversed span so far as accumulator. -/
def matchCloseAux : List Char → Nat → List Char → Option (List Char)
  | [], _, _ => none
  | c :: rest, depth, acc =>
    if c = ']' then
      if depth = 1 then some ((c :: acc).reverse)
      else matchCloseAux rest (depth - 1) (c :: acc)
    else if c = '[' then matchCloseAux rest (depth + 1) (c :: acc)
    else matchCloseAux rest depth (c :: acc)

/-- Modelled from the spec: find the first opening bracket and return the
bracket-matched span it opens. -/
def firstTopLevelArray : List Char → Option (List Char)
  | [] => none
  | c :: rest => if c = '[' then matchCloseAux rest 1 ['['] else firstTopLevelArray rest

/-- A PDF document as the text extractor sees it: either unreadable (fitz
raises on open) or a sequence of page texts in page order. -/
inductive PdfDoc where
  | unreadable : PdfDoc
  | readable (pages : List String) : PdfDoc

/-- Model of extract_text_from_pdf (app.py lines 29-37): start from the
empty string, append the text of every page in order, and strip the result.
On an unreadable document the error is shown and the accumulated empty
string is stripped and returned. -/
def extract_text_from_pdf : PdfDoc → String
  | PdfDoc.unreadable => String.trim ""
  | PdfDoc.readable pages => (pages.foldl (fun acc p => acc ++ p) "").trim

/-- Concatenation of page texts in order with no separator: the reference
form of the concatenation the claim describes. -/
def concatPages : List String → String
  | [] => ""
  | p :: ps => p ++ concatPages ps

/-- One entry of batch_texts (app.py lines 96-100): the file name under the
Source key and the extracted text truncated to 8000 characters. -/
structure RawDocument where
  source : String
  text : String

/-- Model of the batch_texts construction loop (app.py lines 86-100): skip
documents whose extracted text is empty, and attach the file name as Source
to each kept text. -/
def mkBatchTexts : List (String × PdfDoc) → List RawDocument
  | [] => []
  | (name, doc) :: rest =>
    if extract_text_from_pdf doc = "" then mkBatchTexts rest
    else ⟨name, (extract_text_from_pdf doc).take 8000⟩ :: mkBatchTexts rest

/-- The fixed extraction field set of the prompt (app.py lines 52-56). -/
inductive Field where
  | entityName
  | gstin
  | typeOfNotice
  | description
  | refId
  | dateOfIssuance
  | dueDate
  | caseId
  | noticeType
  | financialYear
  | totalDemandAmount
  | dinNo
  | officerName
  | designation
  | areaDivision
  | taxAmount
  | interest
  | penalty
  | source

/-- The column label of each field, as written in the prompt. -/
def fieldLabel : Field → String
  | Field.entityName => "Entity Name"
  | Field.gstin => "GSTIN"
  | Field.typeOfNotice => "Type of Notice / Order"
  | Field.description => "Description"
  | Field.refId => "Ref ID"
  | Field.dateOfIssuance => "Date Of Issuance"
  | Field.dueDate => "Due Date"
  | Field.caseId => "Case ID"
  | Field.noticeType => "Notice Type"
  | Field.financialYear => "Financial Year"
  | Field.totalDemandAmount => "Total Demand Amount"
  | Field.dinNo => "DIN No"
  | Field.officerName => "Officer Name"
  | Field.designation => "Designation"
  | Field.areaDivision => "Area Division"
  | Field.taxAmount => "Tax Amount"
  | Field.interest => "Interest"
  | Field.penalty => "Penalty"
  | Field.source => "Source"

/-- One raw extracted record: the cell of each column, absent when the
extraction output did not populate it.  This is a row of
pd.DataFrame(extracted) restricted to the prompt columns. -/
structure ExtractedRecord where
  fields : Field → Option Json

/-- One register row: the extracted cells plus the Status and Last Updated
columns that ingestion adds (app.py lines 106-108). -/
structure CanonicalRecord where
  fields : Field → Option Json
  status : String
  lastUpdated : String

/-- The row of pd.DataFrame(extracted) built from one parsed JSON element:
an object contributes the value of each column label it carries, with the
last occurrence of a duplicated key winning as in json.loads; a non-object
element contributes no cells. -/
def jsonToRecord : Json → ExtractedRecord
  | Json.obj kvs =>
    ⟨fun f => ((kvs.filter (fun kv => kv.1 == fieldLabel f)).getLast?).map Prod.snd⟩
  | _ => ⟨fun _ => none⟩

/-- The Ref ID of a row, when it is a string cell. -/
def refIdOf (fields : Field → Option Json) : Option String :=
  match fields Field.refId with
  | some (Json.str s) => some s
  | _ => none

/-- The number of register rows whose Ref ID equals the given string. -/
def countRef (reg : List CanonicalRecord) (rid : String) : Nat :=
  reg.countP (fun c => refIdOf c.fields == some rid)

/-- Normalization of one incoming record at ingestion time (app.py lines
106-108): every row of the new batch gets Status Pending and the ingestion
timestamp, and its extracted cells are carried over unchanged. -/
def normalize (r : ExtractedRecord) (t : String) : CanonicalRecord :=
  ⟨r.fields, "Pending", t⟩

/-- Model of the Process Documents ingestion (app.py lines 102-113): when
the extraction result is empty nothing happens; otherwise the normalized
batch is concatenated after the existing register rows, which pd.concat
keeps in order and unchanged. -/
def processDocuments (reg : List CanonicalRecord) (extracted : List ExtractedRecord)
    (t : String) : List CanonicalRecord :=
  if extracted.isEmpty then reg
  else reg ++ extracted.map (fun r => normalize r t)

/-- The fixed status enum (app.py line 22). -/
def STATUS_OPTIONS : List String := ["Pending", "Under Review", "Replied", "Closed"]

/-- Model of the Confirm Update handler (app.py lines 172-177): the row at
the selected index gets the chosen status and a fresh timestamp; every other
row is untouched.  The selectbox only offers indices of existing rows, so
the out-of-range case never arises in the app; it is a no-op here. -/
def confirmUpdate : List CanonicalRecord → Nat → String → String → List CanonicalRecord
  | [], _, _, _ => []
  | r :: rest, 0, s, t => ⟨r.fields, s, t⟩ :: rest
  | r :: rest, Nat.succ i, s, t => r :: confirmUpdate rest i s t

/-- The register states reachable from the empty session register through
the two mutating operations of the app.  A status update can only carry a
status offered by the selectbox, hence one of STATUS_OPTIONS. -/
inductive Reachable : List CanonicalRecord → Prop where
  | empty : Reachable []
  | ingest (reg : List CanonicalRecord) (extracted : List ExtractedRecord) (t : String) :
      Reachable reg → Reachable (processDocuments reg extracted t)
  | update (reg : List CanonicalRecord) (i : Nat) (s t : String) :
      Reachable reg → s ∈ STATUS_OPTIONS → Reachable (confirmUpdate reg i s t)

/-- Concrete cells: Ref ID R, GSTIN X. -/
def fieldsA : Field → Option Json := fun f =>
  match f with
  | Field.refId => some (Json.str "R")
  | Field.gstin => some (Json.str "X")
  | _ => none

/-- Concrete cells: Ref ID R, GSTIN Y. -/
def fieldsB : Field → Option Json := fun f =>
  match f with
  | Field.refId => some (Json.str "R")
  | Field.gstin => some (Json.str "Y")
  | _ => none

/-- Concrete cells: Ref ID S. -/
def fieldsC : Field → Option Json := fun f =>
  match f with
  | Field.refId => some (Json.str "S")
  | _ => none

/-- A concrete incoming record with Ref ID R. -/
def recB : ExtractedRecord := ⟨fieldsB⟩

/-- A concrete incoming record with Ref ID S. -/
def recC : ExtractedRecord := ⟨fieldsC⟩

/-- A concrete register row with Ref ID R whose status a user has set. -/
def rowA : CanonicalRecord := ⟨fieldsA, "Closed", "01-01-2025 10:00"⟩

/-- A concrete register reached by one ingestion and one status update. -/
def regReach : List CanonicalRecord :=
  confirmUpdate (processDocuments [] [recB] "05-01-2025 09:00") 0 "Closed" "06-01-2025 09:00"

/-- The single row of regReach. -/
def rowReach : CanonicalRecord := ⟨fieldsB, "Closed", "06-01-2025 09:00"⟩

/-- A record built from an extraction output object that carries no Source
key. -/
def recNoSource : ExtractedRecord := jsonToRecord (Json.obj [("Ref ID", Json.str "R")])

/-- A collaborator response holding a well-formed array followed by further
bracketed prose. -/
def proseWithTwoArrays : String := "Result: [null] thanks [ps]"

/-- A list with no occurrence of a character has no found index for it. -/
theorem findIdx_none_of_not_mem (a : Char) (l : List Char) (h : a ∉ l) :
    l.findIdx? (fun c => c = a) = none := by
  rw [List.findIdx?_eq_none_iff]
  intro x hx
  exact decide_eq_false (fun e => h (e ▸ hx))

/-- A text with no opening bracket has no regex span. -/
theorem locate_none_of_no_bracket (cs : List Char) (h : '[' ∉ cs) :
    locateJsonArray cs = none := by
  unfold locateJsonArray
  rw [findIdx_none_of_not_mem '[' cs h]

/-- Claim C5: a collaborator response with no square brackets yields the
empty record list from the extraction step, and the step is a total
function, so no input aborts the batch. -/
theorem noBrackets_empty_extraction (s : String)
    (h : '[' ∉ s.data ∧ ']' ∉ s.data) :
    extract_with_ai_batch s = [] := by
  unfold extract_with_ai_batch
  rw [locate_none_of_no_bracket s.data h.1]

/-- Witness for C5 at a bracket-free prose response. -/
theorem noBrackets_empty_extraction_witness :
    ('[' ∉ String.data "no structured data found." ∧
        ']' ∉ String.data "no structured data found.") ∧
      extract_with_ai_batch "no structured data found." = [] :=
  ⟨by decide, noBrackets_empty_extraction _ (by decide)⟩

/-- Counterexample to claim C6: on a response whose well-formed array
[null] is followed by further bracketed prose, the bracket-matched first
top-level array is [null], yet the extraction step returns the empty list,
not the array element, because the greedy regex span runs from the first
opening bracket to the last closing bracket of the whole text and that span
is not valid JSON. -/
theorem c6_regex_not_bracket_matching :
    firstTopLevelArray proseWithTwoArrays.data = some (String.data "[null]") ∧
    parseJson "[null]" = some (Json.arr [Json.null]) ∧
    locateJsonArray proseWithTwoArrays.data = some (String.data "[null] thanks [ps]") ∧
    extract_with_ai_batch proseWithTwoArrays = [] ∧
    ([] : List Json) ≠ [Json.null] :=
  ⟨rfl, rfl, rfl, rfl, fun h => List.noConfusion h⟩

/-- Claim C6 as amended: the extraction step takes the span from the first
opening bracket to the last closing bracket of the response, and whenever
that whole span parses as a JSON array it returns the array elements as the
extracted records. -/
theorem extract_parses_located_span (s : String) (span : List Char) (xs : List Json)
    (hloc : locateJsonArray s.data = some span)
    (hparse : parseJsonChars span = some (Json.arr xs)) :
    extract_with_ai_batch s = xs := by
  unfold extract_with_ai_batch
  rw [hloc]
  show elemsOrEmpty (parseJsonChars span) = xs
  rw [hparse]
  rfl

/-- Witness for the amended C6 at a response whose only brackets are the
array itself. -/
theorem extract_parses_located_span_witness :
    locateJsonArray (String.data "Sure: [null, true] bye.") =
        some (String.data "[null, true]") ∧
      parseJsonChars (String.data "[null, true]") =
        some (Json.arr [Json.null, Json.bool true]) ∧
      extract_with_ai_batch "Sure: [null, true] bye." = [Json.null, Json.bool true] :=
  ⟨rfl, rfl, extract_parses_located_span _ _ _ rfl rfl⟩

/-- Folding string append from any accumulator is the accumulator followed
by the plain concatenation. -/
theorem foldl_append_eq_concatPages (l : List String) (acc : String) :
    l.foldl (fun a p => a ++ p) acc = acc ++ concatPages l := by
  induction l generalizing acc with
  | nil => simp [concatPages, String.append_empty]
  | cons p ps ih =>
    simp only [List.foldl_cons, concatPages, ih (acc ++ p), String.append_assoc]

/-- Claim C7: on a readable PDF, text extraction returns the concatenation
of all page texts in page order with no separator, trimmed of leading and
trailing whitespace. -/
theorem extract_text_concat_pages (pages : List String) :
    extract_text_from_pdf (PdfDoc.readable pages) = (concatPages pages).trim := by
  show (pages.foldl (fun acc p => acc ++ p) "").trim = (concatPages pages).trim
  rw [foldl_append_eq_concatPages, String.empty_append]

/-- Claim C9: ingestion preserves every existing row at its position and
only appends: the register before ingestion is the prefix of the register
after, and the new register is the old one followed by some new rows. -/
theorem ingestion_appends_only (reg : List CanonicalRecord)
    (extracted : List ExtractedRecord) (t : String) :
    (processDocuments reg extracted t).take reg.length = reg ∧
    ∃ newRows : List CanonicalRecord, processDocuments reg extracted t = reg ++ newRows := by
  unfold processDocuments
  by_cases h : extracted.isEmpty
  · rw [if_pos h]
    exact ⟨List.take_length reg, [], (List.append_nil reg).symm⟩
  · rw [if_neg h]
    exact ⟨List.take_left .., _, rfl⟩

/-- Claim C10: when extraction yields no records the ingestion operation
leaves the register exactly unchanged. -/
theorem empty_extraction_leaves_register (reg : List CanonicalRecord) (t : String) :
    processDocuments reg [] t = reg := rfl

/-- Ingesting a single-record batch is exactly appending its normalized
row. -/
theorem processDocuments_singleton (reg : List CanonicalRecord) (r : ExtractedRecord)
    (t : String) : processDocuments reg [r] t = reg ++ [normalize r t] := rfl

/-- Counterexample to claim C1: the register holds one row with Ref ID R
and status Closed; ingesting an incoming record with the same non-empty
Ref ID leaves two rows with that Ref ID, not one, because ingestion is a
plain concat with no merge. -/
theorem c1_duplicate_refId_not_merged :
    refIdOf rowA.fields = some "R" ∧
    refIdOf recB.fields = some "R" ∧
    ("R" : String) ≠ "" ∧
    countRef [rowA] "R" = 1 ∧
    countRef (processDocuments [rowA] [recB] "02-02-2025 12:00") "R" = 2 ∧
    (2 : Nat) ≠ 1 :=
  ⟨rfl, rfl, by decide, by decide, by decide, by decide⟩

/-- Claim C1 as amended: ingesting a record whose non-empty Ref ID already
occurs in the register does not merge it into the matching row; the record
is appended as a fresh row with Status Pending and Last Updated equal to
the ingestion time, the count of rows with that Ref ID grows by one, and
every pre-existing row, its Status and Last Updated included, is kept
unchanged at its position. -/
theorem ingest_existing_refId_appends (reg : List CanonicalRecord) (r : ExtractedRecord)
    (t rid : String) (hrid : refIdOf r.fields = some rid) (hne : rid ≠ "")
    (hpresent : 0 < countRef reg rid) :
    countRef (processDocuments reg [r] t) rid = countRef reg rid + 1 ∧
    (processDocuments reg [r] t).take reg.length = reg ∧
    (processDocuments reg [r] t)[reg.length]? = some ⟨r.fields, "Pending", t⟩ := by
  rw [processDocuments_singleton]
  refine ⟨?_, List.take_left .., List.getElem?_concat_length ..⟩
  have hpred : (refIdOf (normalize r t).fields == some rid) = true := by
    show (refIdOf r.fields == some rid) = true
    rw [hrid]
    exact beq_self_eq_true (some rid)
  unfold countRef
  rw [List.countP_append]
  simp [List.countP_cons, hpred]

/-- Witness for the amended C1: the register row with Ref ID R keeps status
Closed and its old timestamp while the incoming duplicate lands as a second
Pending row. -/
theorem ingest_existing_refId_appends_witness :
    refIdOf recB.fields = some "R" ∧ ("R" : String) ≠ "" ∧ 0 < countRef [rowA] "R" ∧
    (countRef (processDocuments [rowA] [recB] "02-02-2025 12:00") "R" =
        countRef [rowA] "R" + 1 ∧
      (processDocuments [rowA] [recB] "02-02-2025 12:00").take 1 = [rowA] ∧
      (processDocuments [rowA] [recB] "02-02-2025 12:00")[1]? =
        some ⟨recB.fields, "Pending", "02-02-2025 12:00"⟩) :=
  ⟨rfl, by decide, by decide,
    ingest_existing_refId_appends [rowA] recB "02-02-2025 12:00" "R" rfl
      (by decide) (by decide)⟩

/-- Claim C2: ingesting a record whose Ref ID occurs nowhere in the
register grows the register by exactly one row, and the appended row has
Status Pending and Last Updated equal to the ingestion time, with the
extracted cells carried over. -/
theorem ingest_new_refId (reg : List CanonicalRecord) (r : ExtractedRecord)
    (t rid : String) (hrid : refIdOf r.fields = some rid)
    (habsent : countRef reg rid = 0) :
    (processDocuments reg [r] t).length = reg.length + 1 ∧
    (processDocuments reg [r] t)[reg.length]? = some ⟨r.fields, "Pending", t⟩ := by
  rw [processDocuments_singleton]
  refine ⟨?_, List.getElem?_concat_length ..⟩
  simp

/-- Witness for C2: Ref ID S is absent from the one-row register, and the
new row lands at the end as Pending with the ingestion timestamp. -/
theorem ingest_new_refId_witness :
    refIdOf recC.fields = some "S" ∧ countRef [rowA] "S" = 0 ∧
    ((processDocuments [rowA] [recC] "07-01-2025 10:00").length = 1 + 1 ∧
      (processDocuments [rowA] [recC] "07-01-2025 10:00")[1]? =
        some ⟨recC.fields, "Pending", "07-01-2025 10:00"⟩) :=
  ⟨rfl, by decide, ingest_new_refId [rowA] recC "07-01-2025 10:00" "S" rfl (by decide)⟩

/-- Claim C3: a status update of the record at a valid index with a status
from the fixed enum sets that record to the new status and the update time,
keeps all its other fields, and leaves the length and every other record
of the register unchanged, erase-at-the-index agreement expressing that
every other position is untouched. -/
theorem confirmUpdate_correct (reg : List CanonicalRecord) (i : Nat)
    (r : CanonicalRecord) (s t : String) (hr : reg[i]? = some r)
    (hs : s ∈ STATUS_OPTIONS) :
    (confirmUpdate reg i s t)[i]? = some ⟨r.fields, s, t⟩ ∧
    (confirmUpdate reg i s t).length = reg.length ∧
    (confirmUpdate reg i s t).eraseIdx i = reg.eraseIdx i := by
  induction reg generalizing i with
  | nil => simp at hr
  | cons a rest ih =>
    cases i with
    | zero =>
      simp only [List.getElem?_cons_zero, Option.some.injEq] at hr
      subst hr
      have e0 : confirmUpdate (a :: rest) 0 s t =
          (⟨a.fields, s, t⟩ : CanonicalRecord) :: rest := rfl
      rw [e0]
      exact ⟨by simp, by simp, by simp⟩
    | succ n =>
      simp only [List.getElem?_cons_succ] at hr
      have h := ih n hr
      have e1 : confirmUpdate (a :: rest) (n + 1) s t = a :: confirmUpdate rest n s t := rfl
      refine ⟨?_, ?_, ?_⟩
      · rw [e1, List.getElem?_cons_succ]
        exact h.1
      · rw [e1, List.length_cons, List.length_cons, h.2.1]
      · rw [e1, List.eraseIdx_cons_succ, List.eraseIdx_cons_succ, h.2.2]

/-- Witness for C3 at a one-row register updated to Replied. -/
theorem confirmUpdate_correct_witness :
    ([rowA][0]? = some rowA) ∧ "Replied" ∈ STATUS_OPTIONS ∧
    ((confirmUpdate [rowA] 0 "Replied" "03-03-2025 09:00")[0]? =
        some ⟨rowA.fields, "Replied", "03-03-2025 09:00"⟩ ∧
      (confirmUpdate [rowA] 0 "Replied" "03-03-2025 09:00").length = [rowA].length ∧
      (confirmUpdate [rowA] 0 "Replied" "03-03-2025 09:00").eraseIdx 0 =
        [rowA].eraseIdx 0) :=
  ⟨rfl, by decide,
    confirmUpdate_correct [rowA] 0 rowA "Replied" "03-03-2025 09:00" rfl (by decide)⟩

/-- A row of an updated register is an old row or carries the new status. -/
theorem mem_confirmUpdate (r : CanonicalRecord) :
    ∀ (reg : List CanonicalRecord) (i : Nat) (s t : String),
      r ∈ confirmUpdate reg i s t → r ∈ reg ∨ r.status = s := by
  intro reg
  induction reg with
  | nil => intro i s t h; exact absurd h (by simp [confirmUpdate])
  | cons a rest ih =>
    intro i s t h
    cases i with
    | zero =>
      rcases List.mem_cons.mp h with h1 | h1
      · exact Or.inr (by rw [h1])
      · exact Or.inl (List.mem_cons_of_mem a h1)
    | succ n =>
      rcases List.mem_cons.mp h with h1 | h1
      · exact Or.inl (h1 ▸ List.mem_cons_self a rest)
      · rcases ih n s t h1 with h2 | h2
        · exact Or.inl (List.mem_cons_of_mem a h2)
        · exact Or.inr h2

/-- Claim C4: in every register state reachable from the empty register by
ingestions and status updates, the status of every row is one of the fixed
enum values. -/
theorem status_always_in_enum (reg : List CanonicalRecord) (hreach : Reachable reg)
    (r : CanonicalRecord) (hr : r ∈ reg) : r.status ∈ STATUS_OPTIONS := by
  induction hreach generalizing r with
  | empty => simp at hr
  | ingest reg0 extracted t _ ih =>
    unfold processDocuments at hr
    by_cases he : extracted.isEmpty
    · rw [if_pos he] at hr
      exact ih r hr
    · rw [if_neg he] at hr
      rcases List.mem_append.mp hr with h | h
      · exact ih r h
      · rcases List.mem_map.mp h with ⟨x, _, hx⟩
        rw [← hx]
        show "Pending" ∈ STATUS_OPTIONS
        decide
  | update reg0 i s t _ hs ih =>
    rcases mem_confirmUpdate r reg0 i s t hr with h | h
    · exact ih r h
    · rw [h]
      exact hs

/-- Witness for C4: a register built by one ingestion and one update, whose
single row has status Closed, an enum value. -/
theorem status_always_in_enum_witness :
    Reachable regReach ∧ rowReach ∈ regReach ∧ rowReach.status ∈ STATUS_OPTIONS :=
  have h1 : Reachable regReach :=
    Reachable.update (processDocuments [] [recB] "05-01-2025 09:00") 0 "Closed"
      "06-01-2025 09:00"
      (Reachable.ingest [] [recB] "05-01-2025 09:00" Reachable.empty) (by decide)
  have h2 : rowReach ∈ regReach := List.mem_singleton_self rowReach
  ⟨h1, h2, status_always_in_enum regReach h1 rowReach h2⟩

/-- Counterexample to claim C8: an extraction output object that carries no
Source key produces a register row whose Source cell is missing; nothing in
ingestion fills it from the file name. -/
theorem c8_source_not_filled :
    recNoSource.fields Field.source = none ∧
    (processDocuments [] [recNoSource] "04-04-2025 10:00").map
        (fun c => c.fields Field.source) = [none] :=
  ⟨rfl, rfl⟩

/-- Claim C8 as amended: the originating file name is attached as the
Source key of each batch text sent to the extraction client, in upload
order, but normalization carries the extraction output cells over
unchanged and never fills Source, so a register row may lack Source when
the extraction output did not populate it. -/
theorem source_attached_to_input_not_output (files : List (String × PdfDoc))
    (r : ExtractedRecord) (t : String) :
    List.Sublist ((mkBatchTexts files).map RawDocument.source) (files.map Prod.fst) ∧
    (normalize r t).fields = r.fields := by
  refine ⟨?_, rfl⟩
  induction files with
  | nil => exact List.Sublist.refl []
  | cons p rest ih =>
    rcases p with ⟨name, doc⟩
    have hcons : mkBatchTexts ((name, doc) :: rest) =
        if extract_text_from_pdf doc = "" then mkBatchTexts rest
        else ⟨name, (extract_text_from_pdf doc).take 8000⟩ :: mkBatchTexts rest := rfl
    show List.Sublist ((mkBatchTexts ((name, doc) :: rest)).map RawDocument.source)
      (name :: rest.map Prod.fst)
    by_cases h : extract_text_from_pdf doc = ""
    · rw [hcons, if_pos h]
      exact ih.cons name
    · rw [hcons, if_neg h, List.map_cons]
      exact ih.cons₂ name

end Tracker
